import Mathlib

/-!
Verification development for the dither-lab pixel transform engine
(src/unnamed/part_001, function processImage, together with the
DitherAlgorithm enum of src/types.ts).

Shallow embedding conventions:
* Pixel buffers are modelled as a width, a height and a flat channel map
  from index to byte value (row-major interleaved RGBA, channel c of
  pixel (x,y) at index (y*width+x)*4+c), mirroring ImageData.
* The JavaScript number arithmetic of the tone-mapping stage is modelled
  by JSNum: exact rationals extended with signed infinity and NaN, so that
  the division by zero at contrast = 259 and the subsequent clamping
  behave as IEEE754 doubles do on those special values.  Finite arithmetic
  is exact (rationals) where the source uses doubles.
* The Float32Array error accumulator is modelled as a map from pixel index
  to an exact rational; the diffusion weights, written q * 7 / 16 etc. in
  the source, are the corresponding exact fractions.
* Uint8ClampedArray stores clamp to [0,255] and round half to even;
  toUint8 models that store, including NaN mapping to 0.
-/

namespace DitherLab

-- The seven values of the string enum DitherAlgorithm (src/types.ts).
namespace DitherAlgorithm

def Atkinson : String := "Atkinson"

def FloydSteinberg : String := "Floyd-Steinberg"

def Stucki : String := "Stucki"

def Burkes : String := "Burkes"

def Sierra : String := "Sierra"

def Bayer4x4 : String := "Bayer 4x4 (Ordered)"

def Grayscale : String := "Grayscale Only"

end DitherAlgorithm

/-- A JavaScript number as the tone-mapping stage can produce it: an exact
rational, a signed infinity (true = positive), or NaN. -/
inductive JSNum where
  | nan : JSNum
  | inf : Bool → JSNum
  | num : ℚ → JSNum
deriving DecidableEq

namespace JSNum

/-- JavaScript division a / b for finite operands: division by zero yields
a signed infinity (or NaN for 0 / 0). -/
def jdiv (a b : ℚ) : JSNum :=
  if b ≠ 0 then num (a / b)
  else if 0 < a then inf true
  else if a < 0 then inf false
  else nan

/-- Multiplication of a JSNum by a finite number (used for
contrastFactor * (v - 128)): infinity times zero is NaN. -/
def jmulq (x : JSNum) (q : ℚ) : JSNum :=
  match x with
  | nan => nan
  | inf p => if q = 0 then nan else if 0 < q then inf p else inf (!p)
  | num a => num (a * q)

/-- Addition of a finite number to a JSNum (used for ... + 128). -/
def jaddq (x : JSNum) (q : ℚ) : JSNum :=
  match x with
  | nan => nan
  | inf p => inf p
  | num a => num (a + q)

/-- Multiplication of a JSNum by a finite nonnegative constant on the left
(used for the luma weights 0.299, 0.587, 0.114). -/
def jqmul (q : ℚ) (x : JSNum) : JSNum :=
  match x with
  | nan => nan
  | inf p => if q = 0 then nan else if 0 < q then inf p else inf (!p)
  | num a => num (q * a)

/-- Addition of two JSNums (used to sum the three luma terms). -/
def jadd (x y : JSNum) : JSNum :=
  match x, y with
  | nan, _ => nan
  | _, nan => nan
  | inf p, inf q => if p = q then inf p else nan
  | inf p, num _ => inf p
  | num _, inf p => inf p
  | num a, num b => num (a + b)

/-- Math.min(Math.max(x, 0), 255) with JavaScript NaN and infinity
semantics: NaN propagates, +infinity clamps to 255, -infinity to 0. -/
def jclamp (x : JSNum) : JSNum :=
  match x with
  | nan => nan
  | inf true => num 255
  | inf false => num 0
  | num a => num (min (max a 0) 255)

end JSNum

/-- Round to the nearest integer, ties to even (the rounding mode of
Uint8ClampedArray stores). -/
def roundHalfEven (q : ℚ) : ℤ :=
  if q - ⌊q⌋ < 1 / 2 then ⌊q⌋
  else if 1 / 2 < q - ⌊q⌋ then ⌊q⌋ + 1
  else if 2 ∣ ⌊q⌋ then ⌊q⌋ else ⌊q⌋ + 1

/-- A store into a Uint8ClampedArray cell: clamp to [0,255] rounding ties
to even; NaN stores as 0, the infinities as the nearer bound. -/
def toUint8 (x : JSNum) : ℕ :=
  match x with
  | JSNum.nan => 0
  | JSNum.inf true => 255
  | JSNum.inf false => 0
  | JSNum.num q => (roundHalfEven (min (max q 0) 255)).toNat

/-- contrastFactor = (259 * (contrast + 255)) / (255 * (259 - contrast))
(source line 67), with JavaScript division semantics at the singular
denominator. -/
def contrastFactor (contrast : ℚ) : JSNum :=
  JSNum.jdiv (259 * (contrast + 255)) (255 * (259 - contrast))

/-- Tone mapping of one channel value v (source lines 75-82):
clamp(contrastFactor * (v + brightness - 128) + 128, 0, 255). -/
def toneChannel (brightness contrast : ℚ) (v : ℕ) : JSNum :=
  JSNum.jclamp (JSNum.jaddq (JSNum.jmulq (contrastFactor contrast) ((v : ℚ) + brightness - 128)) 128)

/-- The gray byte stored for one pixel by the tone-mapping loop (source
lines 85-89): luma 0.299 r + 0.587 g + 0.114 b of the tone-mapped
channels, stored through the Uint8ClampedArray. -/
def toneGray (brightness contrast : ℚ) (r g b : ℕ) : ℕ :=
  toUint8 (JSNum.jadd
    (JSNum.jadd (JSNum.jqmul (299 / 1000) (toneChannel brightness contrast r))
      (JSNum.jqmul (587 / 1000) (toneChannel brightness contrast g)))
    (JSNum.jqmul (114 / 1000) (toneChannel brightness contrast b)))

/-- A pixel buffer: width, height, and the flat RGBA channel map
(ImageData, well-formed when every value is a byte and only indices below
4 * width * height matter). -/
structure ImageData where
  width : ℕ
  height : ℕ
  data : ℕ → ℕ

/-- Stage 1 (source lines 69-91): every pixel R, G, B are replaced by
the tone-mapped gray of that pixel original R, G, B; alpha untouched. -/
def stage1 (w h : ℕ) (brightness contrast : ℚ) (d : ℕ → ℕ) : ℕ → ℕ :=
  fun idx =>
    if idx < 4 * (w * h) ∧ idx % 4 ≠ 3 then
      toneGray brightness contrast (d (4 * (idx / 4))) (d (4 * (idx / 4) + 1))
        (d (4 * (idx / 4) + 2))
    else d idx

/-- The Bayer matrix for ordered dithering (source lines 46-51). -/
def bayerMatrix4x4 : List (List ℕ) :=
  [[0, 8, 2, 10], [12, 4, 14, 6], [3, 11, 1, 9], [15, 7, 13, 5]]

/-- threshold = bayerMatrix4x4[y % 4][x % 4] / 16 * 255 (source line 119). -/
def bayerThreshold (x y : ℕ) : ℚ :=
  (((bayerMatrix4x4.getD (y % 4) []).getD (x % 4) 0 : ℚ) / 16) * 255

/-- newPixel = oldPixel < 128 ? 0 : 255 (source line 135). -/
def quantize (old : ℚ) : ℕ :=
  if old < 128 then 0 else 255

/-- addError (source lines 109-112): add err into the accumulator cell at
(x, y), silently dropping the write when (x, y) is outside
[0, width) x [0, height). -/
def addError (w h : ℕ) (x y : ℤ) (err : ℚ) (buf : ℕ → ℚ) : ℕ → ℚ :=
  if x < 0 ∨ (w : ℤ) ≤ x ∨ y < 0 ∨ (h : ℤ) ≤ y then buf
  else fun i => if (i : ℤ) = y * w + x then buf i + err else buf i

/-- The diffusion kernel of each algorithm as the list of (dx, dy, weight)
triples, in the order of the addError calls of the source branch on the
algorithm (source lines 145-189); an unmatched selector has no branch and
hence the empty kernel. -/
def kernel (alg : String) : List (ℤ × ℤ × ℚ) :=
  if alg = DitherAlgorithm.FloydSteinberg then
    [(1, 0, 7 / 16), (-1, 1, 3 / 16), (0, 1, 5 / 16), (1, 1, 1 / 16)]
  else if alg = DitherAlgorithm.Atkinson then
    [(1, 0, 1 / 8), (2, 0, 1 / 8), (-1, 1, 1 / 8), (0, 1, 1 / 8), (1, 1, 1 / 8), (0, 2, 1 / 8)]
  else if alg = DitherAlgorithm.Stucki then
    [(1, 0, 8 / 42), (2, 0, 4 / 42), (-2, 1, 2 / 42), (-1, 1, 4 / 42), (0, 1, 8 / 42),
      (1, 1, 4 / 42), (2, 1, 2 / 42), (-2, 2, 1 / 42), (-1, 2, 2 / 42), (0, 2, 4 / 42),
      (1, 2, 2 / 42), (2, 2, 1 / 42)]
  else if alg = DitherAlgorithm.Burkes then
    [(1, 0, 8 / 32), (2, 0, 4 / 32), (-2, 1, 2 / 32), (-1, 1, 4 / 32), (0, 1, 8 / 32),
      (1, 1, 4 / 32), (2, 1, 2 / 32)]
  else if alg = DitherAlgorithm.Sierra then
    [(1, 0, 5 / 32), (2, 0, 3 / 32), (-2, 1, 2 / 32), (-1, 1, 4 / 32), (0, 1, 5 / 32),
      (1, 1, 4 / 32), (2, 1, 2 / 32), (-1, 2, 2 / 32), (0, 2, 3 / 32), (1, 2, 2 / 32)]
  else []

/-- The error-distribution step for one quantized pixel at (x, y): the
sequence of addError(x + dx, y + dy, err * weight) calls of the selected
algorithm branch, in source order. -/
def distribute (alg : String) (w h : ℕ) (x y : ℤ) (err : ℚ) (buf : ℕ → ℚ) : ℕ → ℚ :=
  (kernel alg).foldl (fun b k => addError w h (x + k.1) (y + k.2.1) (err * k.2.2) b) buf

/-- One iteration of the error-diffusion loop (source lines 134-189) at
pixel index i (x = i % w, y = i / w): read the accumulator, quantize,
write the new value to the pixel R, G, B, and distribute the error. -/
def diffuseStep (alg : String) (w h : ℕ) (st : (ℕ → ℕ) × (ℕ → ℚ)) (i : ℕ) :
    (ℕ → ℕ) × (ℕ → ℚ) :=
  let old := st.2 i
  let np := quantize old
  (fun j => if j = 4 * i ∨ j = 4 * i + 1 ∨ j = 4 * i + 2 then np else st.1 j,
   distribute alg w h ((i % w : ℕ) : ℤ) ((i / w : ℕ) : ℤ) (old - (np : ℚ)) st.2)

/-- The error-diffusion double loop (source lines 132-191), folded over
pixel indices 0, 1, ..., w*h - 1, which is raster order
(index i corresponds to x = i % w, y = i / w). -/
def errorDiffusion (alg : String) (w h : ℕ) (d : ℕ → ℕ) (e : ℕ → ℚ) :
    (ℕ → ℕ) × (ℕ → ℚ) :=
  (List.range (w * h)).foldl (diffuseStep alg w h) (d, e)

/-- One iteration of the ordered-dithering loop (source lines 116-127) at
pixel index i: compare the accumulator against the Bayer threshold and
write 255 or 0 to the pixel R, G, B. -/
def bayerStep (w _h : ℕ) (e : ℕ → ℚ) (d : ℕ → ℕ) (i : ℕ) : ℕ → ℕ :=
  let np : ℕ := if bayerThreshold (i % w) (i / w) < e i then 255 else 0
  fun j => if j = 4 * i ∨ j = 4 * i + 1 ∨ j = 4 * i + 2 then np else d j

/-- The ordered-dithering double loop (source lines 115-129). -/
def bayerLoop (w h : ℕ) (d : ℕ → ℕ) (e : ℕ → ℚ) : ℕ → ℕ :=
  (List.range (w * h)).foldl (bayerStep w h e) d

/-- processImage (source lines 53-194): tone mapping, then either an early
return (Grayscale), ordered dithering (Bayer4x4), or the error-diffusion
loop; the error accumulator is initialized from the tone-mapped red
channel (equal to the gray) of each pixel. -/
def processImage (src : ImageData) (alg : String) (brightness contrast : ℚ) : ImageData :=
  let w := src.width
  let h := src.height
  let d := stage1 w h brightness contrast src.data
  if alg = DitherAlgorithm.Grayscale then ⟨w, h, d⟩
  else
    let e : ℕ → ℚ := fun i => (d (4 * i) : ℚ)
    if alg = DitherAlgorithm.Bayer4x4 then ⟨w, h, bayerLoop w h d e⟩
    else ⟨w, h, (errorDiffusion alg w h d e).1⟩

/-- An all-zero accumulator, used to instantiate general lemmas. -/
def zeroAcc : ℕ → ℚ := fun _ => 0

/-- Channel data of a 2 by 1 opaque image: a white pixel at (0,0) followed
by a black pixel (the spec known-vector and corner scenario). -/
def cornerData : ℕ → ℕ :=
  fun idx => if idx < 4 then 255 else if idx % 4 = 3 then 255 else 0

/-- The 2 by 1 image over cornerData. -/
def cornerImage : ImageData := ⟨2, 1, cornerData⟩

/-- The accumulator holding gray 255 at pixel 0 and 0 elsewhere. -/
def cornerAcc : ℕ → ℚ := fun i => if i = 0 then 255 else 0

/-- A selector string that is none of the seven enum values. -/
def unknownAlg : String := "Halftone"

/-- The total weight a kernel sends from source pixel (x, y) to the cell
with flat index j (row-major, width w). -/
def weightAt (ks : List (ℤ × ℤ × ℚ)) (w : ℕ) (x y : ℤ) (j : ℕ) : ℚ :=
  (ks.map fun k =>
    if x + k.1 = ((j % w : ℕ) : ℤ) ∧ y + k.2.1 = ((j / w : ℕ) : ℤ) then k.2.2 else 0).sum

/-! ### Helper lemmas -/

lemma kernel_floydSteinberg : kernel DitherAlgorithm.FloydSteinberg =
    [(1, 0, 7 / 16), (-1, 1, 3 / 16), (0, 1, 5 / 16), (1, 1, 1 / 16)] := by
  rw [kernel, if_pos rfl]

lemma kernel_atkinson : kernel DitherAlgorithm.Atkinson =
    [(1, 0, 1 / 8), (2, 0, 1 / 8), (-1, 1, 1 / 8), (0, 1, 1 / 8), (1, 1, 1 / 8),
     (0, 2, 1 / 8)] := by
  rw [kernel, if_neg (by decide), if_pos rfl]

lemma kernel_stucki : kernel DitherAlgorithm.Stucki =
    [(1, 0, 8 / 42), (2, 0, 4 / 42), (-2, 1, 2 / 42), (-1, 1, 4 / 42), (0, 1, 8 / 42),
     (1, 1, 4 / 42), (2, 1, 2 / 42), (-2, 2, 1 / 42), (-1, 2, 2 / 42), (0, 2, 4 / 42),
     (1, 2, 2 / 42), (2, 2, 1 / 42)] := by
  rw [kernel, if_neg (by decide), if_neg (by decide), if_pos rfl]

lemma kernel_burkes : kernel DitherAlgorithm.Burkes =
    [(1, 0, 8 / 32), (2, 0, 4 / 32), (-2, 1, 2 / 32), (-1, 1, 4 / 32), (0, 1, 8 / 32),
     (1, 1, 4 / 32), (2, 1, 2 / 32)] := by
  rw [kernel, if_neg (by decide), if_neg (by decide), if_neg (by decide), if_pos rfl]

lemma kernel_sierra : kernel DitherAlgorithm.Sierra =
    [(1, 0, 5 / 32), (2, 0, 3 / 32), (-2, 1, 2 / 32), (-1, 1, 4 / 32), (0, 1, 5 / 32),
     (1, 1, 4 / 32), (2, 1, 2 / 32), (-1, 2, 2 / 32), (0, 2, 3 / 32), (1, 2, 2 / 32)] := by
  rw [kernel, if_neg (by decide), if_neg (by decide), if_neg (by decide), if_neg (by decide),
    if_pos rfl]

/-- quantize only ever produces the two levels 0 and 255. -/
lemma quantize_cases (q : ℚ) : quantize q = 0 ∨ quantize q = 255 := by
  unfold quantize; split <;> simp

/-- Pointwise description of one addError call: the cell at (x, y) gains
err exactly when (x, y) is in bounds and the cell flat index matches. -/
lemma addError_apply (w h : ℕ) (x y : ℤ) (err : ℚ) (buf : ℕ → ℚ) (i : ℕ) :
    addError w h x y err buf i =
      if 0 ≤ x ∧ x < w ∧ 0 ≤ y ∧ y < h ∧ (i : ℤ) = y * w + x then buf i + err
      else buf i := by
  by_cases hout : x < 0 ∨ (w : ℤ) ≤ x ∨ y < 0 ∨ (h : ℤ) ≤ y
  · rw [addError, if_pos hout, if_neg]
    rintro ⟨h1, h2, h3, h4, -⟩
    omega
  · push_neg at hout
    obtain ⟨hx0, hxw, hy0, hyh⟩ := hout
    rw [addError, if_neg (by push_neg; exact ⟨hx0, hxw, hy0, hyh⟩)]
    by_cases hi : (i : ℤ) = y * w + x
    · rw [if_pos hi, if_pos ⟨hx0, hxw, hy0, hyh, hi⟩]
    · rw [if_neg hi, if_neg (by rintro ⟨-, -, -, -, hi'⟩; exact hi hi')]

lemma weightAt_nil (w : ℕ) (x y : ℤ) (j : ℕ) : weightAt [] w x y j = 0 := rfl

lemma weightAt_cons (k : ℤ × ℤ × ℚ) (ks : List (ℤ × ℤ × ℚ)) (w : ℕ) (x y : ℤ) (j : ℕ) :
    weightAt (k :: ks) w x y j =
      (if x + k.1 = ((j % w : ℕ) : ℤ) ∧ y + k.2.1 = ((j / w : ℕ) : ℤ) then k.2.2 else 0) +
        weightAt ks w x y j := by
  simp [weightAt]

/-- An in-bounds integer coordinate pair writes flat index j exactly when
it is (j mod w, j div w). -/
lemma index_cond_iff (w h j : ℕ) (hj : j < w * h) (a b : ℤ) :
    (0 ≤ a ∧ a < w ∧ 0 ≤ b ∧ b < h ∧ (j : ℤ) = b * w + a) ↔
      (a = ((j % w : ℕ) : ℤ) ∧ b = ((j / w : ℕ) : ℤ)) := by
  have hw : 0 < w := by
    rcases Nat.eq_zero_or_pos w with hw0 | hw0
    · subst hw0; simp at hj
    · exact hw0
  constructor
  · rintro ⟨ha0, haw, hb0, hbh, hj'⟩
    lift a to ℕ using ha0 with an
    lift b to ℕ using hb0 with bn
    have haw' : an < w := by exact_mod_cast haw
    have hjn : j = w * bn + an := by
      have : (j : ℤ) = (w * bn + an : ℕ) := by push_cast; linarith [hj']
      exact_mod_cast this
    have hmod : j % w = an := by
      rw [hjn, Nat.mul_add_mod, Nat.mod_eq_of_lt haw']
    have hdiv : j / w = bn := by
      rw [hjn, Nat.mul_add_div hw, Nat.div_eq_of_lt haw', Nat.add_zero]
    constructor
    · exact_mod_cast hmod.symm
    · exact_mod_cast hdiv.symm
  · rintro ⟨ha, hb⟩
    subst ha; subst hb
    have hmlt : j % w < w := Nat.mod_lt j hw
    have hdlt : j / w < h := by
      rw [Nat.div_lt_iff_lt_mul hw]
      exact lt_of_lt_of_le hj (le_of_eq (Nat.mul_comm w h))
    have hsplit : j / w * w + j % w = j := Nat.div_add_mod' j w
    refine ⟨by positivity, by exact_mod_cast hmlt, by positivity, by exact_mod_cast hdlt, ?_⟩
    exact_mod_cast hsplit.symm

/-- Pointwise description of a whole sequence of addError calls driven by
a kernel list: cell j gains err times the total weight aimed at j. -/
lemma foldl_addError_apply (w h : ℕ) (x y : ℤ) (err : ℚ) (j : ℕ) (hj : j < w * h)
    (ks : List (ℤ × ℤ × ℚ)) :
    ∀ buf : ℕ → ℚ,
      (ks.foldl (fun bf k => addError w h (x + k.1) (y + k.2.1) (err * k.2.2) bf) buf) j =
        buf j + err * weightAt ks w x y j := by
  induction ks with
  | nil => intro buf; simp [weightAt_nil]
  | cons k ks ih =>
    intro buf
    rw [List.foldl_cons, ih, addError_apply, weightAt_cons,
      if_congr (index_cond_iff w h j hj (x + k.1) (y + k.2.1)) rfl rfl]
    by_cases hc : x + k.1 = ((j % w : ℕ) : ℤ) ∧ y + k.2.1 = ((j / w : ℕ) : ℤ)
    · rw [if_pos hc, if_pos hc]; ring
    · rw [if_neg hc, if_neg hc]; ring

/-- distribute, described pointwise through weightAt. -/
lemma distribute_apply (alg : String) (w h : ℕ) (x y : ℤ) (err : ℚ) (buf : ℕ → ℚ)
    (j : ℕ) (hj : j < w * h) :
    distribute alg w h x y err buf j = buf j + err * weightAt (kernel alg) w x y j :=
  foldl_addError_apply w h x y err j hj (kernel alg) buf

/-- Invariant of the error-diffusion loop after n steps: alpha channels
and not-yet-visited data are untouched, and every visited pixel R, G, B
hold one common value that is 0 or 255. -/
lemma errorDiffusion_inv (alg : String) (w h : ℕ) (d : ℕ → ℕ) (e : ℕ → ℚ) (n : ℕ) :
    (∀ j, 4 * n ≤ j ∨ j % 4 = 3 →
      ((List.range n).foldl (diffuseStep alg w h) (d, e)).1 j = d j) ∧
    (∀ i, i < n → ∃ v, (v = 0 ∨ v = 255) ∧ ∀ c, c < 3 →
      ((List.range n).foldl (diffuseStep alg w h) (d, e)).1 (4 * i + c) = v) := by
  induction n with
  | zero =>
    refine ⟨fun j _ => rfl, fun i hi => absurd hi (by omega)⟩
  | succ n ih =>
    rw [List.range_succ, List.foldl_append, List.foldl_cons, List.foldl_nil]
    set st := (List.range n).foldl (diffuseStep alg w h) (d, e) with hst
    constructor
    · intro j hj
      show (diffuseStep alg w h st n).1 j = d j
      simp only [diffuseStep]
      rw [if_neg (by omega)]
      exact ih.1 j (by omega)
    · intro i hi
      by_cases hi' : i < n
      · obtain ⟨v, hv, hvc⟩ := ih.2 i hi'
        refine ⟨v, hv, fun c hc => ?_⟩
        show (diffuseStep alg w h st n).1 (4 * i + c) = v
        simp only [diffuseStep]
        rw [if_neg (by omega)]
        exact hvc c hc
      · have hin : i = n := by omega
        subst hin
        refine ⟨quantize (st.2 i), quantize_cases _, fun c hc => ?_⟩
        show (diffuseStep alg w h st i).1 (4 * i + c) = quantize (st.2 i)
        simp only [diffuseStep]
        rw [if_pos (by omega)]

/-- With an empty kernel (unmatched algorithm selector) the accumulator is
never modified, so each visited pixel R, G, B hold the plain 128
threshold of its initial accumulator value. -/
lemma errorDiffusion_empty (alg : String) (hk : kernel alg = []) (w h : ℕ)
    (d : ℕ → ℕ) (e : ℕ → ℚ) (n : ℕ) :
    ((List.range n).foldl (diffuseStep alg w h) (d, e)).2 = e ∧
    (∀ j, 4 * n ≤ j ∨ j % 4 = 3 →
      ((List.range n).foldl (diffuseStep alg w h) (d, e)).1 j = d j) ∧
    (∀ i, i < n → ∀ c, c < 3 →
      ((List.range n).foldl (diffuseStep alg w h) (d, e)).1 (4 * i + c) = quantize (e i)) := by
  have hdist : ∀ w' h' x y err buf, distribute alg w' h' x y err buf = buf := by
    intro w' h' x y err buf
    rw [distribute, hk, List.foldl_nil]
  induction n with
  | zero =>
    exact ⟨rfl, fun j _ => rfl, fun i hi => absurd hi (by omega)⟩
  | succ n ih =>
    rw [List.range_succ, List.foldl_append, List.foldl_cons, List.foldl_nil]
    set st := (List.range n).foldl (diffuseStep alg w h) (d, e) with hst
    refine ⟨?_, ?_, ?_⟩
    · show (diffuseStep alg w h st n).2 = e
      simp only [diffuseStep]
      rw [hdist]
      exact ih.1
    · intro j hj
      show (diffuseStep alg w h st n).1 j = d j
      simp only [diffuseStep]
      rw [if_neg (by omega)]
      exact ih.2.1 j (by omega)
    · intro i hi c hc
      show (diffuseStep alg w h st n).1 (4 * i + c) = quantize (e i)
      by_cases hi' : i < n
      · simp only [diffuseStep]
        rw [if_neg (by omega)]
        exact ih.2.2 i hi' c hc
      · have hin : i = n := by omega
        subst hin
        simp only [diffuseStep]
        rw [if_pos (by omega), ih.1]

/-- Invariant of the ordered-dithering loop after n steps: untouched cells
keep their value and every visited pixel R, G, B hold the Bayer
comparison result for that pixel. -/
lemma bayerLoop_inv (w h : ℕ) (e : ℕ → ℚ) (d : ℕ → ℕ) (n : ℕ) :
    (∀ j, 4 * n ≤ j ∨ j % 4 = 3 →
      ((List.range n).foldl (bayerStep w h e) d) j = d j) ∧
    (∀ i, i < n → ∀ c, c < 3 →
      ((List.range n).foldl (bayerStep w h e) d) (4 * i + c) =
        if bayerThreshold (i % w) (i / w) < e i then 255 else 0) := by
  induction n with
  | zero =>
    exact ⟨fun j _ => rfl, fun i hi => absurd hi (by omega)⟩
  | succ n ih =>
    rw [List.range_succ, List.foldl_append, List.foldl_cons, List.foldl_nil]
    set dd := (List.range n).foldl (bayerStep w h e) d with hdd
    constructor
    · intro j hj
      show bayerStep w h e dd n j = d j
      simp only [bayerStep]
      rw [if_neg (by omega)]
      exact ih.1 j (by omega)
    · intro i hi c hc
      show bayerStep w h e dd n (4 * i + c) =
        if bayerThreshold (i % w) (i / w) < e i then 255 else 0
      by_cases hi' : i < n
      · simp only [bayerStep]
        rw [if_neg (by omega)]
        exact ih.2 i hi' c hc
      · have hin : i = n := by omega
        subst hin
        simp only [bayerStep]
        rw [if_pos (by omega)]

/-- roundHalfEven lands on the floor, or on the floor plus one and then
only when the fractional part is at least one half. -/
lemma roundHalfEven_cases (q : ℚ) :
    roundHalfEven q = ⌊q⌋ ∨ (roundHalfEven q = ⌊q⌋ + 1 ∧ 1 / 2 ≤ q - ⌊q⌋) := by
  unfold roundHalfEven
  split_ifs with h1 h2 h3
  · exact Or.inl rfl
  · exact Or.inr ⟨rfl, le_of_lt h2⟩
  · exact Or.inl rfl
  · exact Or.inr ⟨rfl, by linarith [not_lt.mp h1]⟩

lemma roundHalfEven_nonneg (q : ℚ) (h0 : 0 ≤ q) : 0 ≤ roundHalfEven q := by
  have hf : 0 ≤ ⌊q⌋ := Int.floor_nonneg.mpr h0
  rcases roundHalfEven_cases q with h | ⟨h, -⟩ <;> omega

lemma roundHalfEven_le (q : ℚ) (h255 : q ≤ 255) : roundHalfEven q ≤ 255 := by
  rcases roundHalfEven_cases q with h | ⟨h, hfrac⟩
  · have hq : (⌊q⌋ : ℚ) ≤ 255 := le_trans (Int.floor_le q) h255
    rw [h]
    exact_mod_cast hq
  · have h1 : (⌊q⌋ : ℚ) < 255 := by linarith [Int.floor_le q]
    have h2 : ⌊q⌋ < 255 := by exact_mod_cast h1
    rw [h]
    omega

/-- Every Uint8ClampedArray store yields a byte. -/
lemma toUint8_le (x : JSNum) : toUint8 x ≤ 255 := by
  cases x with
  | nan => simp [toUint8]
  | inf b => cases b <;> simp [toUint8]
  | num q =>
    show (roundHalfEven (min (max q 0) 255)).toNat ≤ 255
    have hle : roundHalfEven (min (max q 0) 255) ≤ 255 :=
      roundHalfEven_le _ (min_le_right _ _)
    exact Int.toNat_le.mpr (by exact_mod_cast hle)

/-- Raster order: iterating y over the rows and x over the columns visits
exactly the flat indices 0, 1, ..., w*h - 1 in increasing order. -/
lemma range_flatMap_eq (w h : ℕ) :
    (List.range h).flatMap (fun y => (List.range w).map (fun x => y * w + x)) =
      List.range (w * h) := by
  induction h with
  | zero => simp
  | succ h ih =>
    rw [List.range_succ, List.flatMap_append, ih,
      show w * (h + 1) = w * h + w by ring, List.range_add]
    simp only [List.flatMap_cons, List.flatMap_nil, List.append_nil]
    congr 1
    apply List.map_congr_left
    intro x _
    ring

lemma stage1_apply_channel (w h : ℕ) (b c : ℚ) (d : ℕ → ℕ) (idx : ℕ)
    (h1 : idx < 4 * (w * h)) (h2 : idx % 4 ≠ 3) :
    stage1 w h b c d idx =
      toneGray b c (d (4 * (idx / 4))) (d (4 * (idx / 4) + 1)) (d (4 * (idx / 4) + 2)) := by
  simp only [stage1]
  rw [if_pos ⟨h1, h2⟩]

lemma stage1_apply_other (w h : ℕ) (b c : ℚ) (d : ℕ → ℕ) (idx : ℕ)
    (h1 : ¬(idx < 4 * (w * h) ∧ idx % 4 ≠ 3)) :
    stage1 w h b c d idx = d idx := by
  simp only [stage1]
  rw [if_neg h1]

lemma stage1_le (w h : ℕ) (b c : ℚ) (d : ℕ → ℕ) (idx : ℕ) (hd : d idx ≤ 255) :
    stage1 w h b c d idx ≤ 255 := by
  by_cases hg : idx < 4 * (w * h) ∧ idx % 4 ≠ 3
  · rw [stage1_apply_channel w h b c d idx hg.1 hg.2]
    exact toUint8_le _
  · rw [stage1_apply_other w h b c d idx hg]
    exact hd

lemma processImage_grayscale (src : ImageData) (b c : ℚ) :
    processImage src DitherAlgorithm.Grayscale b c =
      ⟨src.width, src.height, stage1 src.width src.height b c src.data⟩ := by
  simp [processImage]

lemma processImage_bayer (src : ImageData) (b c : ℚ) :
    processImage src DitherAlgorithm.Bayer4x4 b c =
      ⟨src.width, src.height,
        bayerLoop src.width src.height (stage1 src.width src.height b c src.data)
          (fun i => ((stage1 src.width src.height b c src.data) (4 * i) : ℚ))⟩ := by
  simp only [processImage]
  rw [if_neg (by decide), if_pos trivial]

lemma processImage_diffusion (src : ImageData) (alg : String) (b c : ℚ)
    (h1 : alg ≠ DitherAlgorithm.Grayscale) (h2 : alg ≠ DitherAlgorithm.Bayer4x4) :
    processImage src alg b c =
      ⟨src.width, src.height,
        (errorDiffusion alg src.width src.height (stage1 src.width src.height b c src.data)
          (fun i => ((stage1 src.width src.height b c src.data) (4 * i) : ℚ))).1⟩ := by
  simp only [processImage]
  rw [if_neg h1, if_neg h2]

/-! ### Claims -/

/-- C1: each error-diffusion algorithm kernel is exactly the spec
(dx, dy, weight) table — Floyd-Steinberg distributes (1,0):7/16,
(-1,1):3/16, (0,1):5/16, (1,1):1/16, Atkinson six weights of 1/8 summing
to 6/8 so that 2/8 of the error is discarded, and Stucki, Burkes and
Sierra their listed tables — and after quantizing a pixel the engine adds
error times weight into the accumulator at exactly those offsets: cell j
changes by error times the total kernel weight aimed at j, which is zero
for every cell at no listed offset. -/
theorem C1_kernel_table :
    (kernel DitherAlgorithm.FloydSteinberg =
      [(1, 0, 7 / 16), (-1, 1, 3 / 16), (0, 1, 5 / 16), (1, 1, 1 / 16)] ∧
     kernel DitherAlgorithm.Atkinson =
      [(1, 0, 1 / 8), (2, 0, 1 / 8), (-1, 1, 1 / 8), (0, 1, 1 / 8), (1, 1, 1 / 8),
       (0, 2, 1 / 8)] ∧
     kernel DitherAlgorithm.Stucki =
      [(1, 0, 8 / 42), (2, 0, 4 / 42), (-2, 1, 2 / 42), (-1, 1, 4 / 42), (0, 1, 8 / 42),
       (1, 1, 4 / 42), (2, 1, 2 / 42), (-2, 2, 1 / 42), (-1, 2, 2 / 42), (0, 2, 4 / 42),
       (1, 2, 2 / 42), (2, 2, 1 / 42)] ∧
     kernel DitherAlgorithm.Burkes =
      [(1, 0, 8 / 32), (2, 0, 4 / 32), (-2, 1, 2 / 32), (-1, 1, 4 / 32), (0, 1, 8 / 32),
       (1, 1, 4 / 32), (2, 1, 2 / 32)] ∧
     kernel DitherAlgorithm.Sierra =
      [(1, 0, 5 / 32), (2, 0, 3 / 32), (-2, 1, 2 / 32), (-1, 1, 4 / 32), (0, 1, 5 / 32),
       (1, 1, 4 / 32), (2, 1, 2 / 32), (-1, 2, 2 / 32), (0, 2, 3 / 32), (1, 2, 2 / 32)]) ∧
    ((kernel DitherAlgorithm.Atkinson).map (fun k => k.2.2)).sum = 6 / 8 ∧
    (∀ (alg : String) (w h : ℕ) (x y : ℤ) (err : ℚ) (buf : ℕ → ℚ) (j : ℕ), j < w * h →
      distribute alg w h x y err buf j = buf j + err * weightAt (kernel alg) w x y j) := by
  refine ⟨⟨kernel_floydSteinberg, kernel_atkinson, kernel_stucki, kernel_burkes,
    kernel_sierra⟩, ?_, ?_⟩
  · rw [kernel_atkinson]
    norm_num
  · intro alg w h x y err buf j hj
    exact distribute_apply alg w h x y err buf j hj

/-- Witness for C1 at a concrete input. -/
theorem C1_kernel_table_witness :
    (3 : ℕ) < 2 * 2 ∧
    distribute DitherAlgorithm.FloydSteinberg 2 2 1 1 1 zeroAcc 3 =
      zeroAcc 3 + 1 * weightAt (kernel DitherAlgorithm.FloydSteinberg) 2 1 1 3 :=
  ⟨by decide, C1_kernel_table.2.2 DitherAlgorithm.FloydSteinberg 2 2 1 1 1 zeroAcc 3 (by decide)⟩

/-- C2: every error-diffusion run visits the pixels in strict raster order
(flat indices obtained row 0 left to right, then row 1, ...), and at each
pixel reads the raw accumulator value old, writes quantize old — 0 when
old is less than 128, 255 otherwise, so exactly 128 yields 255 — to the
pixel R, G and B channels, and propagates old minus new into the
accumulator, which is threaded through the loop unchanged apart from
those additions (never clamped to 8 bits before quantization). -/
theorem C2_raster_order_quantize :
    (∀ old : ℚ, quantize old = if old < 128 then 0 else 255) ∧
    quantize 128 = 255 ∧
    (∀ (src : ImageData) (alg : String) (b c : ℚ),
      alg ≠ DitherAlgorithm.Grayscale → alg ≠ DitherAlgorithm.Bayer4x4 →
      processImage src alg b c =
        ⟨src.width, src.height,
          (((List.range src.height).flatMap
              (fun y => (List.range src.width).map (fun x => y * src.width + x))).foldl
            (diffuseStep alg src.width src.height)
            (stage1 src.width src.height b c src.data,
             fun i => ((stage1 src.width src.height b c src.data) (4 * i) : ℚ))).1⟩) ∧
    (∀ (alg : String) (w h : ℕ) (st : (ℕ → ℕ) × (ℕ → ℚ)) (i : ℕ),
      diffuseStep alg w h st i =
        (fun j => if j = 4 * i ∨ j = 4 * i + 1 ∨ j = 4 * i + 2 then quantize (st.2 i)
          else st.1 j,
         distribute alg w h ((i % w : ℕ) : ℤ) ((i / w : ℕ) : ℤ)
           (st.2 i - (quantize (st.2 i) : ℚ)) st.2)) := by
  refine ⟨fun old => rfl, by norm_num [quantize], ?_, fun alg w h st i => rfl⟩
  intro src alg b c h1 h2
  rw [processImage_diffusion src alg b c h1 h2]
  rw [range_flatMap_eq src.width src.height]
  rfl

/-- Witness for C2 at a concrete input. -/
theorem C2_raster_order_quantize_witness :
    DitherAlgorithm.FloydSteinberg ≠ DitherAlgorithm.Grayscale ∧
    DitherAlgorithm.FloydSteinberg ≠ DitherAlgorithm.Bayer4x4 ∧
    processImage cornerImage DitherAlgorithm.FloydSteinberg 0 0 =
      ⟨cornerImage.width, cornerImage.height,
        (((List.range cornerImage.height).flatMap
            (fun y => (List.range cornerImage.width).map (fun x => y * cornerImage.width + x))).foldl
          (diffuseStep DitherAlgorithm.FloydSteinberg cornerImage.width cornerImage.height)
          (stage1 cornerImage.width cornerImage.height 0 0 cornerImage.data,
           fun i => ((stage1 cornerImage.width cornerImage.height 0 0 cornerImage.data)
             (4 * i) : ℚ))).1⟩ :=
  ⟨by decide, by decide,
    C2_raster_order_quantize.2.2.1 cornerImage DitherAlgorithm.FloydSteinberg 0 0
      (by decide) (by decide)⟩

/-- C3: Stage 1 maps every R, G, B channel of every pixel through
clamp(contrastFactor * (v + brightness - 128) + 128, 0, 255) with
contrastFactor = (259 * (contrast + 255)) / (255 * (259 - contrast)) and
no clamp between the brightness addition and the contrast step, computes
gray = 0.299 R + 0.587 G + 0.114 B from the post-brightness-contrast
channels, stores gray (rounded and clamped to 8 bits) into R, G and B
alike, and leaves alpha untouched. -/
theorem C3_tone_mapping :
    ∀ (w h : ℕ) (brightness contrast : ℚ) (d : ℕ → ℕ) (idx : ℕ), idx < 4 * (w * h) →
      (idx % 4 ≠ 3 →
        stage1 w h brightness contrast d idx =
          toUint8 (JSNum.jadd (JSNum.jadd
            (JSNum.jqmul (299 / 1000) (JSNum.jclamp (JSNum.jaddq (JSNum.jmulq
              (JSNum.jdiv (259 * (contrast + 255)) (255 * (259 - contrast)))
              ((d (4 * (idx / 4)) : ℚ) + brightness - 128)) 128)))
            (JSNum.jqmul (587 / 1000) (JSNum.jclamp (JSNum.jaddq (JSNum.jmulq
              (JSNum.jdiv (259 * (contrast + 255)) (255 * (259 - contrast)))
              ((d (4 * (idx / 4) + 1) : ℚ) + brightness - 128)) 128))))
            (JSNum.jqmul (114 / 1000) (JSNum.jclamp (JSNum.jaddq (JSNum.jmulq
              (JSNum.jdiv (259 * (contrast + 255)) (255 * (259 - contrast)))
              ((d (4 * (idx / 4) + 2) : ℚ) + brightness - 128)) 128))))) ∧
      (idx % 4 = 3 → stage1 w h brightness contrast d idx = d idx) := by
  intro w h brightness contrast d idx hidx
  constructor
  · intro h3
    rw [stage1_apply_channel w h brightness contrast d idx hidx h3]
    rfl
  · intro h3
    exact stage1_apply_other w h brightness contrast d idx (by simp [h3])

/-- Witness for C3 at a concrete input: the white pixel of cornerData
tone-maps to gray 255 under neutral settings, and its alpha is kept. -/
theorem C3_tone_mapping_witness :
    stage1 2 1 0 0 cornerData 0 = 255 ∧ stage1 2 1 0 0 cornerData 3 = cornerData 3 := by
  constructor
  · have h := (C3_tone_mapping 2 1 0 0 cornerData 0 (by decide)).1 (by decide)
    rw [h]
    norm_num [cornerData, JSNum.jdiv, JSNum.jmulq, JSNum.jaddq, JSNum.jclamp, JSNum.jqmul,
      JSNum.jadd, toUint8, roundHalfEven]
    rfl
  · exact (C3_tone_mapping 2 1 0 0 cornerData 3 (by decide)).2 (by decide)

/-- C4: under Bayer 4x4 the output value of each R, G, B channel of pixel
(x, y) is 255 exactly when the pixel tone-mapped gray is strictly
greater than bayerMatrix4x4[y mod 4][x mod 4] / 16 * 255, and 0 otherwise;
the right-hand side depends only on the pixel own tone-mapped gray
(stage1 reads only that pixel channels) and its coordinates, so there is
no error propagation. -/
theorem C4_bayer_threshold :
    ∀ (src : ImageData) (b c : ℚ) (x y : ℕ), x < src.width → y < src.height →
      ∀ ch, ch < 3 →
        (processImage src DitherAlgorithm.Bayer4x4 b c).data (4 * (y * src.width + x) + ch) =
          if bayerThreshold x y <
              ((stage1 src.width src.height b c src.data) (4 * (y * src.width + x)) : ℚ)
            then 255 else 0 := by
  intro src b c x y hx hy ch hch
  have hw : 0 < src.width := by omega
  have hi : y * src.width + x < src.width * src.height := by
    calc y * src.width + x < y * src.width + src.width := by omega
      _ = (y + 1) * src.width := by ring
      _ ≤ src.height * src.width := Nat.mul_le_mul_right _ (by omega)
      _ = src.width * src.height := Nat.mul_comm _ _
  have hmod : (y * src.width + x) % src.width = x := by
    rw [Nat.mul_comm y src.width, Nat.mul_add_mod, Nat.mod_eq_of_lt hx]
  have hdiv : (y * src.width + x) / src.width = y := by
    rw [Nat.mul_comm y src.width, Nat.mul_add_div hw, Nat.div_eq_of_lt hx, Nat.add_zero]
  have h := (bayerLoop_inv src.width src.height
    (fun i => ((stage1 src.width src.height b c src.data) (4 * i) : ℚ))
    (stage1 src.width src.height b c src.data)
    (src.width * src.height)).2 (y * src.width + x) hi ch hch
  rw [hmod, hdiv] at h
  rw [processImage_bayer src b c]
  exact h

/-- Witness for C4 at a concrete input. -/
theorem C4_bayer_threshold_witness :
    (processImage cornerImage DitherAlgorithm.Bayer4x4 0 0).data (4 * (0 * 2 + 1) + 2) =
      if bayerThreshold 1 0 <
          ((stage1 cornerImage.width cornerImage.height 0 0 cornerImage.data)
            (4 * (0 * 2 + 1)) : ℚ)
        then 255 else 0 :=
  C4_bayer_threshold cornerImage 0 0 1 0 (by decide) (by decide) 2 (by decide)

/-- C5: under Grayscale-only the engine returns right after Stage 1 (no
dithering stage runs) and each written channel is a byte in [0, 255];
under every other algorithm, every output pixel R, G and B are equal
and are exactly 0 or exactly 255. -/
theorem C5_binary_output :
    (∀ (src : ImageData) (b c : ℚ),
      processImage src DitherAlgorithm.Grayscale b c =
        ⟨src.width, src.height, stage1 src.width src.height b c src.data⟩) ∧
    (∀ (w h : ℕ) (b c : ℚ) (d : ℕ → ℕ) (idx : ℕ), idx < 4 * (w * h) → idx % 4 ≠ 3 →
      stage1 w h b c d idx ≤ 255) ∧
    (∀ (src : ImageData) (alg : String) (b c : ℚ), alg ≠ DitherAlgorithm.Grayscale →
      ∀ i, i < src.width * src.height →
        (processImage src alg b c).data (4 * i) = (processImage src alg b c).data (4 * i + 1) ∧
        (processImage src alg b c).data (4 * i + 1) =
          (processImage src alg b c).data (4 * i + 2) ∧
        ((processImage src alg b c).data (4 * i) = 0 ∨
          (processImage src alg b c).data (4 * i) = 255)) := by
  refine ⟨fun src b c => processImage_grayscale src b c, ?_, ?_⟩
  · intro w h b c d idx h1 h2
    rw [stage1_apply_channel w h b c d idx h1 h2]
    exact toUint8_le _
  · intro src alg b c hgr i hi
    by_cases hba : alg = DitherAlgorithm.Bayer4x4
    · subst hba
      have h := (bayerLoop_inv src.width src.height
        (fun k => ((stage1 src.width src.height b c src.data) (4 * k) : ℚ))
        (stage1 src.width src.height b c src.data)
        (src.width * src.height)).2 i hi
      have h0 := h 0 (by omega)
      have h1 := h 1 (by omega)
      have h2 := h 2 (by omega)
      rw [Nat.add_zero] at h0
      rw [processImage_bayer src b c]
      have hsplit : ∀ (p : Prop) (inst : Decidable p),
          (if p then (255 : ℕ) else 0) = 0 ∨ (if p then (255 : ℕ) else 0) = 255 := by
        intro p inst
        split <;> simp
      exact ⟨h0.trans h1.symm, h1.trans h2.symm,
        (hsplit _ _).elim (fun e => Or.inl (h0.trans e)) (fun e => Or.inr (h0.trans e))⟩
    · have h := (errorDiffusion_inv alg src.width src.height
        (stage1 src.width src.height b c src.data)
        (fun k => ((stage1 src.width src.height b c src.data) (4 * k) : ℚ))
        (src.width * src.height)).2 i hi
      obtain ⟨v, hv, hvc⟩ := h
      have h0 := hvc 0 (by omega)
      have h1 := hvc 1 (by omega)
      have h2 := hvc 2 (by omega)
      rw [Nat.add_zero] at h0
      rw [processImage_diffusion src alg b c hgr hba]
      exact ⟨h0.trans h1.symm, h1.trans h2.symm,
        hv.elim (fun e => Or.inl (h0.trans (e ▸ rfl))) (fun e => Or.inr (h0.trans (e ▸ rfl)))⟩

/-- Witness for C5 at a concrete input. -/
theorem C5_binary_output_witness :
    (0 : ℕ) < 4 * (2 * 1) ∧ (0 : ℕ) % 4 ≠ 3 ∧ stage1 2 1 0 0 cornerData 0 ≤ 255 ∧
    ((processImage cornerImage DitherAlgorithm.Atkinson 0 0).data (4 * 0) =
      (processImage cornerImage DitherAlgorithm.Atkinson 0 0).data (4 * 0 + 1) ∧
     (processImage cornerImage DitherAlgorithm.Atkinson 0 0).data (4 * 0 + 1) =
      (processImage cornerImage DitherAlgorithm.Atkinson 0 0).data (4 * 0 + 2) ∧
     ((processImage cornerImage DitherAlgorithm.Atkinson 0 0).data (4 * 0) = 0 ∨
      (processImage cornerImage DitherAlgorithm.Atkinson 0 0).data (4 * 0) = 255)) :=
  ⟨by decide, by decide, C5_binary_output.2.1 2 1 0 0 cornerData 0 (by decide) (by decide),
    C5_binary_output.2.2 cornerImage DitherAlgorithm.Atkinson 0 0 (by decide) 0 (by decide)⟩

/-- C7: for every buffer, algorithm and tone parameters the output has the
input width and height, its alpha channel equals the input alpha
pixel-for-pixel, and every index beyond the pixel area is also untouched;
the input buffer itself is never mutated (the embedding is a pure
function of the input, which is returned unchanged to the caller). -/
theorem C7_dims_alpha :
    ∀ (src : ImageData) (alg : String) (b c : ℚ),
      (processImage src alg b c).width = src.width ∧
      (processImage src alg b c).height = src.height ∧
      (∀ i, i < src.width * src.height →
        (processImage src alg b c).data (4 * i + 3) = src.data (4 * i + 3)) ∧
      (∀ j, 4 * (src.width * src.height) ≤ j →
        (processImage src alg b c).data j = src.data j) := by
  intro src alg b c
  by_cases hgr : alg = DitherAlgorithm.Grayscale
  · subst hgr
    rw [processImage_grayscale src b c]
    refine ⟨rfl, rfl, fun i hi => ?_, fun j hj => ?_⟩
    · exact stage1_apply_other _ _ _ _ _ _ (by omega)
    · exact stage1_apply_other _ _ _ _ _ _ (by omega)
  · by_cases hba : alg = DitherAlgorithm.Bayer4x4
    · subst hba
      rw [processImage_bayer src b c]
      have h := (bayerLoop_inv src.width src.height
        (fun k => ((stage1 src.width src.height b c src.data) (4 * k) : ℚ))
        (stage1 src.width src.height b c src.data) (src.width * src.height)).1
      refine ⟨rfl, rfl, fun i hi => ?_, fun j hj => ?_⟩
      · exact (h (4 * i + 3) (by omega)).trans (stage1_apply_other _ _ _ _ _ _ (by omega))
      · exact (h j (by omega)).trans (stage1_apply_other _ _ _ _ _ _ (by omega))
    · rw [processImage_diffusion src alg b c hgr hba]
      have h := (errorDiffusion_inv alg src.width src.height
        (stage1 src.width src.height b c src.data)
        (fun k => ((stage1 src.width src.height b c src.data) (4 * k) : ℚ))
        (src.width * src.height)).1
      refine ⟨rfl, rfl, fun i hi => ?_, fun j hj => ?_⟩
      · exact (h (4 * i + 3) (by omega)).trans (stage1_apply_other _ _ _ _ _ _ (by omega))
      · exact (h j (by omega)).trans (stage1_apply_other _ _ _ _ _ _ (by omega))

/-- Witness for C7 at a concrete input. -/
theorem C7_dims_alpha_witness :
    (processImage cornerImage DitherAlgorithm.Stucki 0 0).width = cornerImage.width ∧
    (processImage cornerImage DitherAlgorithm.Stucki 0 0).height = cornerImage.height ∧
    (processImage cornerImage DitherAlgorithm.Stucki 0 0).data (4 * 1 + 3) =
      cornerImage.data (4 * 1 + 3) := by
  have h := C7_dims_alpha cornerImage DitherAlgorithm.Stucki 0 0
  exact ⟨h.1, h.2.1, h.2.2.1 1 (by decide)⟩

/-- C8: the engine is total over well-formed buffers.  At the singular
contrast 259 the contrast factor is positive infinity; every tone-mapped
channel then degrades to 255, 0 or NaN, and the Uint8ClampedArray store
maps NaN and the infinities to a boundary of [0, 255]; for every finite
brightness and contrast (259 included) and every byte-valued input, every
output channel value is a defined byte in [0, 255]. -/
theorem C8_totality :
    contrastFactor 259 = JSNum.inf true ∧
    (∀ (b : ℚ) (v : ℕ),
      toneChannel b 259 v = JSNum.num 255 ∨ toneChannel b 259 v = JSNum.num 0 ∨
        toneChannel b 259 v = JSNum.nan) ∧
    toUint8 JSNum.nan = 0 ∧ toUint8 (JSNum.inf true) = 255 ∧ toUint8 (JSNum.inf false) = 0 ∧
    (∀ (src : ImageData) (alg : String) (b c : ℚ),
      (∀ idx, src.data idx ≤ 255) → ∀ idx, (processImage src alg b c).data idx ≤ 255) := by
  have hcf : contrastFactor 259 = JSNum.inf true := by
    norm_num [contrastFactor, JSNum.jdiv]
  refine ⟨hcf, ?_, rfl, rfl, rfl, ?_⟩
  · intro b v
    rw [toneChannel, hcf]
    rcases lt_trichotomy ((v : ℚ) + b - 128) 0 with h | h | h
    · simp [JSNum.jmulq, JSNum.jaddq, JSNum.jclamp, ne_of_lt h, not_lt.mpr (le_of_lt h)]
    · simp [JSNum.jmulq, JSNum.jaddq, JSNum.jclamp, h]
    · simp [JSNum.jmulq, JSNum.jaddq, JSNum.jclamp, ne_of_gt h, h]
  · intro src alg b c hsrc idx
    have hout : ∀ (dd : ℕ → ℕ),
        (∀ j, 4 * (src.width * src.height) ≤ j ∨ j % 4 = 3 →
          dd j = stage1 src.width src.height b c src.data j) →
        (∀ i, i < src.width * src.height → ∀ ch, ch < 3 →
          dd (4 * i + ch) = 0 ∨ dd (4 * i + ch) = 255) →
        dd idx ≤ 255 := by
      intro dd huntouched hbinary
      by_cases hg : idx < 4 * (src.width * src.height) ∧ idx % 4 ≠ 3
      · have hidx : idx = 4 * (idx / 4) + idx % 4 := by omega
        have := hbinary (idx / 4) (by omega) (idx % 4) (by omega)
        rw [← hidx] at this
        rcases this with h | h <;> omega
      · rw [huntouched idx (by omega)]
        exact stage1_le _ _ _ _ _ _ (hsrc idx)
    by_cases hgr : alg = DitherAlgorithm.Grayscale
    · subst hgr
      rw [processImage_grayscale src b c]
      exact stage1_le _ _ _ _ _ _ (hsrc idx)
    · by_cases hba : alg = DitherAlgorithm.Bayer4x4
      · subst hba
        rw [processImage_bayer src b c]
        have h := bayerLoop_inv src.width src.height
          (fun k => ((stage1 src.width src.height b c src.data) (4 * k) : ℚ))
          (stage1 src.width src.height b c src.data) (src.width * src.height)
        have hsplit : ∀ (p : Prop) (inst : Decidable p),
            (if p then (255 : ℕ) else 0) = 0 ∨ (if p then (255 : ℕ) else 0) = 255 := by
          intro p inst
          split <;> simp
        refine hout _ (fun j hj => h.1 j hj) (fun i hi ch hch => ?_)
        have hv := h.2 i hi ch hch
        exact (hsplit _ _).elim (fun e => Or.inl (hv.trans e)) (fun e => Or.inr (hv.trans e))
      · rw [processImage_diffusion src alg b c hgr hba]
        have h := errorDiffusion_inv alg src.width src.height
          (stage1 src.width src.height b c src.data)
          (fun k => ((stage1 src.width src.height b c src.data) (4 * k) : ℚ))
          (src.width * src.height)
        refine hout _ (fun j hj => h.1 j hj) (fun i hi ch hch => ?_)
        obtain ⟨v, hv, hvc⟩ := h.2 i hi
        exact hv.elim (fun e => Or.inl ((hvc ch hch).trans (e ▸ rfl)))
          (fun e => Or.inr ((hvc ch hch).trans (e ▸ rfl)))

/-- Witness for C8 at a concrete input. -/
theorem C8_totality_witness :
    (toneChannel 0 259 0 = JSNum.num 255 ∨ toneChannel 0 259 0 = JSNum.num 0 ∨
      toneChannel 0 259 0 = JSNum.nan) ∧
    (processImage cornerImage DitherAlgorithm.Burkes 0 259).data 0 ≤ 255 :=
  ⟨C8_totality.2.1 0 0,
    C8_totality.2.2.2.2.2 cornerImage DitherAlgorithm.Burkes 0 259
      (fun idx => by show cornerData idx ≤ 255; unfold cornerData; split_ifs <;> omega) 0⟩

/-- C9: with brightness 0 and contrast 0 the contrast factor is exactly 1
and the tone stage is the identity on each byte channel, so the stored
gray is the 8-bit store of the luma 0.299 R + 0.587 G + 0.114 B of the
original channel values. -/
theorem C9_neutral_tone :
    contrastFactor 0 = JSNum.num 1 ∧
    (∀ v : ℕ, v ≤ 255 → toneChannel 0 0 v = JSNum.num v) ∧
    (∀ r g b : ℕ, r ≤ 255 → g ≤ 255 → b ≤ 255 →
      toneGray 0 0 r g b =
        toUint8 (JSNum.num
          ((299 / 1000) * (r : ℚ) + (587 / 1000) * (g : ℚ) + (114 / 1000) * (b : ℚ)))) := by
  have hcf : contrastFactor 0 = JSNum.num 1 := by
    norm_num [contrastFactor, JSNum.jdiv]
  have hch : ∀ v : ℕ, v ≤ 255 → toneChannel 0 0 v = JSNum.num v := by
    intro v hv
    rw [toneChannel, hcf]
    simp only [JSNum.jmulq, JSNum.jaddq, JSNum.jclamp, JSNum.num.injEq]
    have h0 : (0 : ℚ) ≤ (v : ℚ) := Nat.cast_nonneg v
    have h255 : (v : ℚ) ≤ 255 := by exact_mod_cast hv
    rw [show (1 : ℚ) * ((v : ℚ) + 0 - 128) + 128 = (v : ℚ) by ring,
      max_eq_left h0, min_eq_left h255]
  refine ⟨hcf, hch, ?_⟩
  intro r g b hr hg hb
  rw [toneGray, hch r hr, hch g hg, hch b hb]
  simp only [JSNum.jqmul, JSNum.jadd]

/-- Witness for C9 at a concrete input. -/
theorem C9_neutral_tone_witness :
    (7 : ℕ) ≤ 255 ∧ toneChannel 0 0 7 = JSNum.num 7 ∧
    toneGray 0 0 10 20 30 =
      toUint8 (JSNum.num
        ((299 / 1000) * ((10 : ℕ) : ℚ) + (587 / 1000) * ((20 : ℕ) : ℚ) +
          (114 / 1000) * ((30 : ℕ) : ℚ))) :=
  ⟨by decide, C9_neutral_tone.2.1 7 (by decide),
    C9_neutral_tone.2.2 10 20 30 (by decide) (by decide) (by decide)⟩

/-- C10: a selector that matches none of the seven enum values still
terminates and reaches the error-diffusion loop with no matching kernel
branch: its kernel is empty, distributing is the identity on the
accumulator, and each output pixel R, G and B are the plain 128
threshold of the pixel own tone-mapped gray. -/
theorem C10_unknown_selector :
    ∀ alg : String,
      alg ≠ DitherAlgorithm.FloydSteinberg → alg ≠ DitherAlgorithm.Atkinson →
      alg ≠ DitherAlgorithm.Stucki → alg ≠ DitherAlgorithm.Burkes →
      alg ≠ DitherAlgorithm.Sierra → alg ≠ DitherAlgorithm.Bayer4x4 →
      alg ≠ DitherAlgorithm.Grayscale →
      kernel alg = [] ∧
      (∀ (w h : ℕ) (x y : ℤ) (err : ℚ) (buf : ℕ → ℚ), distribute alg w h x y err buf = buf) ∧
      (∀ (src : ImageData) (b c : ℚ) (i : ℕ), i < src.width * src.height → ∀ ch, ch < 3 →
        (processImage src alg b c).data (4 * i + ch) =
          quantize ((stage1 src.width src.height b c src.data) (4 * i) : ℚ)) := by
  intro alg hfs hat hst hbu hsi hba hgr
  have hk : kernel alg = [] := by
    rw [kernel, if_neg hfs, if_neg hat, if_neg hst, if_neg hbu, if_neg hsi]
  refine ⟨hk, fun w h x y err buf => by rw [distribute, hk, List.foldl_nil], ?_⟩
  intro src b c i hi ch hch
  rw [processImage_diffusion src alg b c hgr hba]
  exact (errorDiffusion_empty alg hk src.width src.height
    (stage1 src.width src.height b c src.data)
    (fun k => ((stage1 src.width src.height b c src.data) (4 * k) : ℚ))
    (src.width * src.height)).2.2 i hi ch hch

/-- Witness for C10 at a concrete input. -/
theorem C10_unknown_selector_witness :
    kernel unknownAlg = [] ∧
    distribute unknownAlg 2 1 0 0 (1 / 2) zeroAcc = zeroAcc ∧
    (processImage cornerImage unknownAlg 0 0).data (4 * 0 + 0) =
      quantize ((stage1 cornerImage.width cornerImage.height 0 0 cornerImage.data) (4 * 0) : ℚ) := by
  have h := C10_unknown_selector unknownAlg (by decide) (by decide) (by decide) (by decide)
    (by decide) (by decide) (by decide)
  exact ⟨h.1, h.2.1 2 1 0 0 (1 / 2) zeroAcc, h.2.2 cornerImage 0 0 0 (by decide) 0 (by decide)⟩

/-- Neutral tone mapping is the identity on the corner image channels. -/
lemma stage1_corner (idx : ℕ) : stage1 2 1 0 0 cornerData idx = cornerData idx := by
  by_cases hg : idx < 4 * (2 * 1) ∧ idx % 4 ≠ 3
  · rw [stage1_apply_channel 2 1 0 0 cornerData idx hg.1 hg.2]
    have h8 : idx < 8 := by omega
    interval_cases idx <;>
      first
        | omega
        | (norm_num [cornerData, toneGray, toneChannel, contrastFactor, JSNum.jdiv, JSNum.jmulq,
            JSNum.jaddq, JSNum.jclamp, JSNum.jqmul, JSNum.jadd, toUint8, roundHalfEven]
           try rfl)
  · exact stage1_apply_other 2 1 0 0 cornerData idx hg

/-- The corner image initial accumulator is cornerAcc. -/
lemma acc_corner : (fun i => ((cornerData (4 * i) : ℕ) : ℚ)) = cornerAcc := by
  funext i
  rcases Nat.eq_zero_or_pos i with h0 | h0
  · subst h0
    norm_num [cornerData, cornerAcc]
  · show ((cornerData (4 * i) : ℕ) : ℚ) = cornerAcc i
    rw [show cornerData (4 * i) = 0 from by
        unfold cornerData; rw [if_neg (by omega), if_neg (by omega)],
      show cornerAcc i = 0 from by unfold cornerAcc; rw [if_neg (by omega)]]
    norm_num

set_option maxHeartbeats 1600000 in
/-- C6: any addError target outside [0, width) x [0, height) is silently
dropped — the accumulator is returned unchanged, with no wraparound and no
out-of-bounds write — and concretely, the 2 by 1 image with a single white
pixel at corner (0,0) and the other pixel black, processed with
Floyd-Steinberg at neutral tone settings, reproduces itself: no error
reaches any cell (the quantization error of both pixels is zero and every
off-image kernel offset is dropped). -/
theorem C6_edge_handling :
    (∀ (w h : ℕ) (x y : ℤ) (err : ℚ) (buf : ℕ → ℚ),
      (x < 0 ∨ (w : ℤ) ≤ x ∨ y < 0 ∨ (h : ℤ) ≤ y) → addError w h x y err buf = buf) ∧
    (∀ j, j < 8 →
      (processImage cornerImage DitherAlgorithm.FloydSteinberg 0 0).data j =
        cornerImage.data j) ∧
    (∀ i, i < 2 →
      (errorDiffusion DitherAlgorithm.FloydSteinberg 2 1 cornerData cornerAcc).2 i =
        cornerAcc i) := by
  refine ⟨fun w h x y err buf hout => by rw [addError, if_pos hout], ?_, ?_⟩
  · intro j hj
    have hpi : processImage cornerImage DitherAlgorithm.FloydSteinberg 0 0 =
        ⟨2, 1, (errorDiffusion DitherAlgorithm.FloydSteinberg 2 1 cornerData cornerAcc).1⟩ := by
      rw [processImage_diffusion cornerImage DitherAlgorithm.FloydSteinberg 0 0
        (by decide) (by decide)]
      show (⟨2, 1, (errorDiffusion DitherAlgorithm.FloydSteinberg 2 1
          (stage1 2 1 0 0 cornerData)
          (fun i => ((stage1 2 1 0 0 cornerData) (4 * i) : ℚ))).1⟩ : ImageData) = _
      rw [funext stage1_corner, acc_corner]
    rw [hpi]
    show (errorDiffusion DitherAlgorithm.FloydSteinberg 2 1 cornerData cornerAcc).1 j =
      cornerData j
    interval_cases j <;>
      norm_num [errorDiffusion, List.range_succ, List.range_zero, List.foldl_cons,
        List.foldl_nil, diffuseStep, distribute, kernel_floydSteinberg, addError, quantize,
        cornerData, cornerAcc]
  · intro i hi
    interval_cases i <;>
      norm_num [errorDiffusion, List.range_succ, List.range_zero, List.foldl_cons,
        List.foldl_nil, diffuseStep, distribute, kernel_floydSteinberg, addError, quantize,
        cornerData, cornerAcc]

/-- Witness for C6 at a concrete input: the Floyd-Steinberg offset (-1, 1)
from corner pixel (0, 0) is out of bounds and dropped. -/
theorem C6_edge_handling_witness :
    addError 2 1 (-1) 1 (7 / 16) cornerAcc = cornerAcc ∧
    (processImage cornerImage DitherAlgorithm.FloydSteinberg 0 0).data 0 =
      cornerImage.data 0 ∧
    (errorDiffusion DitherAlgorithm.FloydSteinberg 2 1 cornerData cornerAcc).2 1 =
      cornerAcc 1 := by
  have h := C6_edge_handling
  exact ⟨h.1 2 1 (-1) 1 (7 / 16) cornerAcc (by decide), h.2.1 0 (by decide),
    h.2.2 1 (by decide)⟩

end DitherLab
